import Mathlib

/-!
Verification development for the Skylark BI Agent repository.

The core under verification is the ingestion / normalization / analytics
engine described in the repository documentation, together with the
frontend helpers that are present as source (ChartPanel.jsx formatINR,
api.js fetch helpers, App.jsx submitMessage).  Numeric fields are
modelled as rationals, strings as Lean strings, and fallible paths as
explicit sum types, so every definition is executable.
-/

namespace Skylark

/-! ### Character and digit utilities -/

/-- Decimal digit test, matching the ASCII range 48..57. -/
def isDigitCh (c : Char) : Bool := c.isDigit

/-- Numeric value of an ASCII digit character. -/
def digitVal (c : Char) : Nat := c.toNat - 48

/-- ASCII digit character for a value below ten. -/
def digitCh (d : Nat) : Char := Char.ofNat (48 + d)

/-- Value of a big-endian list of digit characters. -/
def digitsVal (cs : List Char) : Nat :=
  cs.foldl (fun v c => 10 * v + digitVal c) 0

/-- Big-endian decimal digit characters of a natural number. -/
def natToChars (n : Nat) : List Char :=
  if n = 0 then ['0'] else ((Nat.digits 10 n).reverse.map digitCh)

/-- Pad a digit string with leading zeros up to width k. -/
def padZeros (k : Nat) (cs : List Char) : List Char :=
  List.replicate (k - cs.length) '0' ++ cs

/-- Whitespace test (space, tab, newline, carriage return). -/
def isWs (c : Char) : Bool :=
  c == ' ' || c == '\t' || c == '\n' || c == '\r'

/-- Strip leading and trailing whitespace from a character list. -/
def trimChars (l : List Char) : List Char :=
  ((l.dropWhile isWs).reverse.dropWhile isWs).reverse

/-! ### Decimal number parsing (the float grammar used by the normalizer) -/

/-- Parse an unsigned decimal numeral: digits, optionally a point and
more digits.  Returns the exact rational value. -/
def parseUnsignedDec (l : List Char) : Option ℚ :=
  if l.takeWhile isDigitCh = [] then none
  else
    match l.dropWhile isDigitCh with
    | [] => some (digitsVal (l.takeWhile isDigitCh) : ℚ)
    | '.' :: fp =>
        if fp ≠ [] ∧ fp.all isDigitCh then
          some ((digitsVal (l.takeWhile isDigitCh) : ℚ) +
            (digitsVal fp : ℚ) / 10 ^ fp.length)
        else none
    | _ => none

/-- Parse a signed decimal numeral. -/
def parseDec (l : List Char) : Option ℚ :=
  if l.head? = some '-' then (parseUnsignedDec l.tail).map (fun q => -q)
  else parseUnsignedDec l

/-- String version of `parseDec`. -/
def parseDecS (s : String) : Option ℚ := parseDec s.data

/-! ### Decimal printing -/

/-- Smallest exponent `k ≤ den` with `den ∣ 10 ^ k`, when one exists. -/
def decExp (den : Nat) : Option Nat :=
  (List.range (den + 1)).find? (fun k => 10 ^ k % den == 0)

/-- Positional decimal rendering of a nonnegative rational at a given
power-of-ten exponent. -/
def printWithExp (q : ℚ) (k : Nat) : List Char :=
  if k = 0 then natToChars (q.num.toNat * (10 ^ k / q.den))
  else
    natToChars (q.num.toNat * (10 ^ k / q.den) / 10 ^ k) ++
      '.' :: padZeros k (natToChars (q.num.toNat * (10 ^ k / q.den) % 10 ^ k))

/-- Print a nonnegative decimal-representable rational in positional
decimal notation.  (The fallback arm is unreachable for values produced
by `parseDec`.) -/
def printNonnegRat (q : ℚ) : List Char :=
  match decExp q.den with
  | none => ['0']
  | some k => printWithExp q k

/-- Print a decimal-representable rational, with a minus sign when
negative. -/
def printRat (q : ℚ) : List Char :=
  if q < 0 then '-' :: printNonnegRat (-q) else printNonnegRat q

/-- String version of `printRat`. -/
def printRatS (q : ℚ) : String := String.mk (printRat q)

/-- A rational is decimal-representable when its reduced denominator
divides some power of ten. -/
def DecimalRep (q : ℚ) : Prop := ∃ k, (q.den : ℕ) ∣ 10 ^ k

/-! ### JavaScript number formatting (ChartPanel.jsx) -/

/-- Minus sign for a negative integer, nothing otherwise. -/
def signChars (n : ℤ) : List Char := if n < 0 then ['-'] else []

/-- Model of JavaScript `Number.prototype.toFixed f`: round to the
nearest multiple of `10 ^ (-f)` (ties towards the larger value) and
print with exactly `f` fractional digits. -/
def toFixedQ (q : ℚ) (f : Nat) : String :=
  let n : ℤ := ⌊q * 10 ^ f + 1 / 2⌋
  if f = 0 then String.mk (signChars n ++ natToChars n.natAbs)
  else
    String.mk (signChars n ++ natToChars (n.natAbs / 10 ^ f) ++
      '.' :: padZeros f (natToChars (n.natAbs % 10 ^ f)))

/-- Embedding of `formatINR` from src/src/components/ChartPanel.jsx:
`val >= 1e7 → ₹_Cr`, `val >= 1e5 → ₹_L`, `val >= 1e3 → ₹_K`, otherwise
the unabbreviated `₹${val}` (modelled by exact decimal printing). -/
def formatINR (val : ℚ) : String :=
  if val ≥ 10 ^ 7 then "₹" ++ toFixedQ (val / 10 ^ 7) 1 ++ "Cr"
  else if val ≥ 10 ^ 5 then "₹" ++ toFixedQ (val / 10 ^ 5) 1 ++ "L"
  else if val ≥ 10 ^ 3 then "₹" ++ toFixedQ (val / 10 ^ 3) 0 ++ "K"
  else "₹" ++ printRatS val

/-! ### Data-quality flags and field parsers (Record Normalizer)

Modelled from the spec: the backend normalizer (`data_normalizer.py`) is
not part of the source tree; its field rules are taken from the spec's
§4.2 and the repository documentation's Data Quality Handling table. -/

/-- Reasons attached to a data-quality flag. -/
inductive FlagReason
  | ERROR_SENTINEL
  | MISSING
  | UNPARSEABLE_NUMBER
  | NEGATIVE_VALUE
deriving DecidableEq, Repr

/-- A data-quality flag: the field name, the original raw value, and a
reason. -/
structure DataQualityFlag where
  field : String
  raw : Option String
  reason : FlagReason
deriving DecidableEq, Repr

/-- The well-known formula-error marker. -/
def errorSentinel : String := "#VALUE!"

/-- Modelled from the spec: currency/number fields parse numeric text;
the error sentinel maps to 0.0 plus a quality flag; empty/null maps to
0.0 plus a missing flag; otherwise the value is parsed as-is, clamped
to ≥ 0 with a flag if negative; unparseable text yields 0.0 plus an
unparseable-number flag. -/
def parseCurrencyStr (s : String) : ℚ × List FlagReason :=
  if trimChars s.data = [] then (0, [FlagReason.MISSING])
  else if s = errorSentinel then (0, [FlagReason.ERROR_SENTINEL])
  else
    match parseDecS s with
    | none => (0, [FlagReason.UNPARSEABLE_NUMBER])
    | some q => if q < 0 then (0, [FlagReason.NEGATIVE_VALUE]) else (q, [])

/-- Currency parsing lifted to nullable cells: null/absent is missing. -/
def parseCurrency (raw : Option String) : ℚ × List FlagReason :=
  match raw with
  | none => (0, [FlagReason.MISSING])
  | some s => parseCurrencyStr s

/-- Attach a field name and raw value to a list of flag reasons. -/
def flagsFor (fieldName : String) (raw : Option String)
    (rs : List FlagReason) : List DataQualityFlag :=
  rs.map (fun r => ⟨fieldName, raw, r⟩)

/-- A parsed (magnitude, unit) pair from a composite quantity field. -/
structure QuantityValue where
  magnitude : ℚ
  unit : String
deriving DecidableEq, Repr

/-- Modelled from the spec: composite quantity fields of shape
`"<float> <token>"` are split on the first run of whitespace after the
numeric prefix; the magnitude is parsed as a float and the remainder is
trimmed as the unit code; any other shape yields magnitude 0.0, unit
"Unknown" and an UNPARSEABLE_NUMBER flag. -/
def parseQuantity (s : String) : QuantityValue × List FlagReason :=
  match parseDec (s.data.takeWhile (fun c => !isWs c)) with
  | some m =>
      if trimChars (s.data.dropWhile (fun c => !isWs c)) = [] then
        (⟨0, "Unknown"⟩, [FlagReason.UNPARSEABLE_NUMBER])
      else (⟨m, String.mk (trimChars (s.data.dropWhile (fun c => !isWs c)))⟩, [])
  | none => (⟨0, "Unknown"⟩, [FlagReason.UNPARSEABLE_NUMBER])

/-- Format a quantity value back to its composite text form. -/
def formatQuantity (qv : QuantityValue) : String :=
  printRatS qv.magnitude ++ " " ++ qv.unit

/-! ### Raw items and record normalization -/

/-- One raw board record: a mapping from column title to an optional
raw textual value (`none` models a null/absent cell). -/
def RawItem : Type := List (String × Option String)

/-- Look a column title up in a raw item; absent and null cells both
yield `none`. -/
def lookupRaw (item : RawItem) (title : String) : Option String :=
  (List.lookup title item).join

/-- Case- and whitespace-normalized key used for enum matching. -/
def normKey (s : String) : String :=
  String.mk ((trimChars s.data).map Char.toLower)

/-- Deal status enum with an explicit Unknown fall-through. -/
inductive DealStatus
  | Open
  | Won
  | Dead
  | OnHold
  | Unknown
deriving DecidableEq, Repr

/-- Modelled from the spec: status fields match case/whitespace
insensitively against the known variants, anything else falls through
to Unknown (no flag). -/
def parseDealStatus (raw : Option String) : DealStatus :=
  match raw with
  | none => DealStatus.Unknown
  | some s =>
    let k := normKey s
    if k = "open" then DealStatus.Open
    else if k = "won" then DealStatus.Won
    else if k = "dead" then DealStatus.Dead
    else if k = "on hold" then DealStatus.OnHold
    else DealStatus.Unknown

/-- Closure probability enum. -/
inductive Probability
  | High
  | Medium
  | Low
  | Unknown
deriving DecidableEq, Repr

/-- Enum matching for the closure-probability field. -/
def parseProbability (raw : Option String) : Probability :=
  match raw with
  | none => Probability.Unknown
  | some s =>
    let k := normKey s
    if k = "high" then Probability.High
    else if k = "medium" then Probability.Medium
    else if k = "low" then Probability.Low
    else Probability.Unknown

/-- Date fields: either the "not set" sentinel or a kept date value.
Modelled from the spec: the permissive multi-format date parser of the
backend is abstracted as keeping any non-empty raw text verbatim;
missing or empty input yields the "not set" sentinel. -/
inductive DateField
  | notSet
  | onDate (s : String)
deriving DecidableEq, Repr

/-- Parse a date cell into a `DateField`. -/
def parseDateField (raw : Option String) : DateField :=
  match raw with
  | none => DateField.notSet
  | some s => if trimChars s.data = [] then DateField.notSet else DateField.onDate s

/-- Free-text field: empty/null becomes "Unknown". -/
def textField (raw : Option String) : String :=
  match raw with
  | none => "Unknown"
  | some s => if trimChars s.data = [] then "Unknown" else s

/-- Column titles of the Deals board (from the repository docs). -/
def ownerTitle : String := "Owner code"

def clientTitle : String := "Client Code"

def dealStatusTitle : String := "Deal Status"

def closeDateTitle : String := "Close Date (A)"

def probabilityTitle : String := "Closure Probability"

def maskedValueTitle : String := "Masked Deal value"

def tentativeCloseTitle : String := "Tentative Close Date"

def dealStageTitle : String := "Deal Stage"

def productTitle : String := "Product deal"

def sectorServiceTitle : String := "Sector/service"

def createdDateTitle : String := "Created Date"

/-- A normalized deal record. -/
structure NormalizedDeal where
  owner : String
  client : String
  status : DealStatus
  closeDate : DateField
  probability : Probability
  value : ℚ
  tentativeCloseDate : DateField
  stage : String
  product : String
  sector : String
  createdDate : DateField
deriving DecidableEq, Repr

/-- Modelled from the spec: normalize one raw Deals-board item.  A
duplicated header row (the designated status field's raw value equals
its own column title) is dropped (`none`); otherwise every field is
normalized independently and the record is returned together with its
data-quality flags. -/
def normalizeDeal (item : RawItem) : Option (NormalizedDeal × List DataQualityFlag) :=
  if lookupRaw item dealStatusTitle = some dealStatusTitle then none
  else
    let rawValue := lookupRaw item maskedValueTitle
    let pv := parseCurrency rawValue
    some
      ({ owner := textField (lookupRaw item ownerTitle)
         client := textField (lookupRaw item clientTitle)
         status := parseDealStatus (lookupRaw item dealStatusTitle)
         closeDate := parseDateField (lookupRaw item closeDateTitle)
         probability := parseProbability (lookupRaw item probabilityTitle)
         value := pv.1
         tentativeCloseDate := parseDateField (lookupRaw item tentativeCloseTitle)
         stage := textField (lookupRaw item dealStageTitle)
         product := textField (lookupRaw item productTitle)
         sector := textField (lookupRaw item sectorServiceTitle)
         createdDate := parseDateField (lookupRaw item createdDateTitle) },
       flagsFor maskedValueTitle rawValue pv.2)

/-- Normalize a whole Deals record set, dropping header-duplicate rows. -/
def normalizeDeals (items : List RawItem) : List (NormalizedDeal × List DataQualityFlag) :=
  items.filterMap normalizeDeal

/-- Work-order platform enum. -/
inductive Platform
  | SPECTRA
  | DMO
  | NONE
  | Unknown
deriving DecidableEq, Repr

/-- Enum matching for the platform field. -/
def parsePlatform (raw : Option String) : Platform :=
  match raw with
  | none => Platform.Unknown
  | some s =>
    let k := normKey s
    if k = "spectra" then Platform.SPECTRA
    else if k = "dmo" then Platform.DMO
    else if k = "none" then Platform.NONE
    else Platform.Unknown

/-- AR priority enum. -/
inductive ArPriority
  | High
  | Medium
  | Low
  | Unknown
deriving DecidableEq, Repr

/-- Enum matching for the AR-priority field. -/
def parseArPriority (raw : Option String) : ArPriority :=
  match raw with
  | none => ArPriority.Unknown
  | some s =>
    let k := normKey s
    if k = "high" then ArPriority.High
    else if k = "medium" then ArPriority.Medium
    else if k = "low" then ArPriority.Low
    else ArPriority.Unknown

/-- Column titles of the Work Orders board (from the repository docs). -/
def customerTitle : String := "Customer Name Code"

def execStatusTitle : String := "Execution Status"

def poDateTitle : String := "Date of PO/LOI"

def bdOwnerTitle : String := "BD/KAM Personnel code"

def woSectorTitle : String := "Sector"

def platformTitle : String := "Platform"

def amountExclTitle : String := "Amount Excl GST (Masked)"

def amountInclTitle : String := "Amount Incl GST (Masked)"

def billedExclTitle : String := "Billed Value Excl GST (Masked)"

def billedInclTitle : String := "Billed Value Incl GST (Masked)"

def collectedTitle : String := "Collected Amount Incl GST (Masked)"

def receivableTitle : String := "Amount Receivable"

def arPriorityTitle : String := "AR Priority"

def invoiceStatusTitle : String := "Invoice Status"

def billingStatusTitle : String := "WO Status (billed)"

def collectionStatusTitle : String := "Collection status"

/-- A normalized work-order record. -/
structure NormalizedWorkOrder where
  customer : String
  executionStatus : String
  poDate : DateField
  owner : String
  sector : String
  platform : Platform
  amountExclGst : ℚ
  amountInclGst : ℚ
  billedExclGst : ℚ
  billedInclGst : ℚ
  collected : ℚ
  receivable : ℚ
  arPriority : ArPriority
  invoiceStatus : String
  billingStatus : String
  collectionStatus : String
deriving DecidableEq, Repr

/-- Modelled from the spec: normalize one raw Work-Orders-board item,
with the same header-duplicate drop rule keyed on the designated status
column. -/
def normalizeWorkOrder (item : RawItem) :
    Option (NormalizedWorkOrder × List DataQualityFlag) :=
  if lookupRaw item execStatusTitle = some execStatusTitle then none
  else
    let rAmtE := lookupRaw item amountExclTitle
    let rAmtI := lookupRaw item amountInclTitle
    let rBilE := lookupRaw item billedExclTitle
    let rBilI := lookupRaw item billedInclTitle
    let rCol := lookupRaw item collectedTitle
    let rRec := lookupRaw item receivableTitle
    let pAmtE := parseCurrency rAmtE
    let pAmtI := parseCurrency rAmtI
    let pBilE := parseCurrency rBilE
    let pBilI := parseCurrency rBilI
    let pCol := parseCurrency rCol
    let pRec := parseCurrency rRec
    some
      ({ customer := textField (lookupRaw item customerTitle)
         executionStatus := textField (lookupRaw item execStatusTitle)
         poDate := parseDateField (lookupRaw item poDateTitle)
         owner := textField (lookupRaw item bdOwnerTitle)
         sector := textField (lookupRaw item woSectorTitle)
         platform := parsePlatform (lookupRaw item platformTitle)
         amountExclGst := pAmtE.1
         amountInclGst := pAmtI.1
         billedExclGst := pBilE.1
         billedInclGst := pBilI.1
         collected := pCol.1
         receivable := pRec.1
         arPriority := parseArPriority (lookupRaw item arPriorityTitle)
         invoiceStatus := textField (lookupRaw item invoiceStatusTitle)
         billingStatus := textField (lookupRaw item billingStatusTitle)
         collectionStatus := textField (lookupRaw item collectionStatusTitle) },
       flagsFor amountExclTitle rAmtE pAmtE.2 ++
       flagsFor amountInclTitle rAmtI pAmtI.2 ++
       flagsFor billedExclTitle rBilE pBilE.2 ++
       flagsFor billedInclTitle rBilI pBilI.2 ++
       flagsFor collectedTitle rCol pCol.2 ++
       flagsFor receivableTitle rRec pRec.2)

/-- Normalize a whole Work-Orders record set. -/
def normalizeWorkOrders (items : List RawItem) :
    List (NormalizedWorkOrder × List DataQualityFlag) :=
  items.filterMap normalizeWorkOrder

/-! ### Analytics Engine

Modelled from the spec: the backend analytics module (`bi_engine.py`)
is not part of the source tree; its aggregates are taken from the
spec's §4.4 (pipeline summary, win rate, ad-hoc pivot) with the
dimension and metric sets of AdhocPanel.jsx. -/

/-- A pivot cell: a plain numeric magnitude, or the "insufficient
data" report used when a win-rate denominator is zero. -/
inductive PivotCell
  | num (q : ℚ)
  | insufficientData
deriving DecidableEq, Repr

/-- Sort key of a pivot cell. -/
def cellKey : PivotCell → ℚ
  | PivotCell.num q => q
  | PivotCell.insufficientData => 0

/-- Keep the first occurrence of every element. -/
def dedupKeepFirst : List String → List String
  | [] => []
  | x :: xs => x :: dedupKeepFirst (xs.filter (fun y => y ≠ x))
termination_by l => l.length
decreasing_by
  simp only [List.length_cons]
  exact Nat.lt_succ_of_le (List.length_filter_le _ _)

/-- Insert into a list kept in descending key order. -/
def insertByDesc (key : α → ℚ) (x : α) : List α → List α
  | [] => [x]
  | y :: ys => if key y < key x then x :: y :: ys else y :: insertByDesc key x ys

/-- Insertion sort, descending by key. -/
def sortByDesc (key : α → ℚ) : List α → List α
  | [] => []
  | x :: xs => insertByDesc key x (sortByDesc key xs)

/-- Rank pivot entries: numeric cells in descending order, then the
insufficient-data cells. -/
def rankEntries (es : List (String × PivotCell)) : List (String × PivotCell) :=
  sortByDesc (fun e => cellKey e.2)
      (es.filter (fun e => e.2 ≠ PivotCell.insufficientData)) ++
    es.filter (fun e => e.2 = PivotCell.insufficientData)

/-- Number of Won deals in a group. -/
def wonCount (ds : List NormalizedDeal) : Nat :=
  (ds.filter (fun d => d.status = DealStatus.Won)).length

/-- Number of Dead deals in a group. -/
def deadCount (ds : List NormalizedDeal) : Nat :=
  (ds.filter (fun d => d.status = DealStatus.Dead)).length

/-- Number of Open deals in a group. -/
def openCount (ds : List NormalizedDeal) : Nat :=
  (ds.filter (fun d => d.status = DealStatus.Open)).length

/-- Sum of Open deal values in a group. -/
def openValueSum (ds : List NormalizedDeal) : ℚ :=
  ((ds.filter (fun d => d.status = DealStatus.Open)).map (fun d => d.value)).sum

/-- Win rate of a group: won / (won + dead), reported as insufficient
data when the denominator is zero (never NaN, never a division-by-zero
failure). -/
def winRate (ds : List NormalizedDeal) : PivotCell :=
  let w := wonCount ds
  let dd := deadCount ds
  if w + dd = 0 then PivotCell.insufficientData
  else PivotCell.num ((w : ℚ) / ((w : ℚ) + (dd : ℚ)))

/-- Deals of a given sector. -/
def dealsOfSector (ds : List NormalizedDeal) (s : String) : List NormalizedDeal :=
  ds.filter (fun d => d.sector = s)

/-- Sectors present in a record set, first occurrence first. -/
def sectorsOf (ds : List NormalizedDeal) : List String :=
  dedupKeepFirst (ds.map (fun d => d.sector))

/-- Pipeline summary: per sector, the count and value sum of
open-status deals plus the group's win rate. -/
def pipelineSummary (ds : List NormalizedDeal) :
    List (String × Nat × ℚ × PivotCell) :=
  (sectorsOf ds).map (fun s =>
    (s, openCount (dealsOfSector ds s), openValueSum (dealsOfSector ds s),
      winRate (dealsOfSector ds s)))

/-- Pivot dimensions accepted by the ad-hoc endpoint
(src/frontend/src/components/AdhocPanel.jsx DIMENSIONS). -/
def validDimensions : List String :=
  ["sector", "owner", "stage", "status", "platform"]

/-- Pivot metrics accepted by the ad-hoc endpoint
(src/frontend/src/components/AdhocPanel.jsx METRICS). -/
def validMetrics : List String :=
  ["deal_count", "deal_value", "win_rate", "wo_count", "billed", "collected", "ar"]

/-- Display text of a deal status. -/
def dealStatusText : DealStatus → String
  | DealStatus.Open => "Open"
  | DealStatus.Won => "Won"
  | DealStatus.Dead => "Dead"
  | DealStatus.OnHold => "On Hold"
  | DealStatus.Unknown => "Unknown"

/-- Display text of a platform. -/
def platformText : Platform → String
  | Platform.SPECTRA => "SPECTRA"
  | Platform.DMO => "DMO"
  | Platform.NONE => "NONE"
  | Platform.Unknown => "Unknown"

/-- Grouping key of a deal under a pivot dimension.  Modelled from the
spec: deals have no platform column, so the product field stands in for
the Product / Platform dimension (AdhocPanel labels it that way). -/
def dealKey (dimension : String) (d : NormalizedDeal) : String :=
  if dimension = "sector" then d.sector
  else if dimension = "owner" then d.owner
  else if dimension = "stage" then d.stage
  else if dimension = "status" then dealStatusText d.status
  else if dimension = "platform" then d.product
  else "Unknown"

/-- Grouping key of a work order under a pivot dimension. -/
def woKey (dimension : String) (w : NormalizedWorkOrder) : String :=
  if dimension = "sector" then w.sector
  else if dimension = "owner" then w.owner
  else if dimension = "stage" then w.executionStatus
  else if dimension = "status" then w.executionStatus
  else if dimension = "platform" then platformText w.platform
  else "Unknown"

/-- Group a deal record set by a dimension and reduce each group. -/
def pivotDealEntries (dimension : String)
    (cellOf : List NormalizedDeal → PivotCell)
    (ds : List NormalizedDeal) : List (String × PivotCell) :=
  rankEntries ((dedupKeepFirst (ds.map (dealKey dimension))).map (fun s =>
    (s, cellOf (ds.filter (fun d => dealKey dimension d = s)))))

/-- Group a work-order record set by a dimension and reduce each group. -/
def pivotWoEntries (dimension : String)
    (cellOf : List NormalizedWorkOrder → PivotCell)
    (ws : List NormalizedWorkOrder) : List (String × PivotCell) :=
  rankEntries ((dedupKeepFirst (ws.map (woKey dimension))).map (fun s =>
    (s, cellOf (ws.filter (fun w => woKey dimension w = s)))))

/-- Result of an ad-hoc pivot: ranked entries, total, top entry and the
relevant record count. -/
structure PivotResult where
  entries : List (String × PivotCell)
  total : ℚ
  top : Option (String × PivotCell)
  recordCount : Nat
deriving DecidableEq, Repr

/-- The pivot error taxonomy. -/
inductive PivotError
  | UnsupportedPivot
deriving DecidableEq, Repr

/-- Assemble a pivot result from ranked entries. -/
def mkPivotResult (es : List (String × PivotCell)) (records : Nat) : PivotResult :=
  { entries := es
    total := (es.map (fun e => cellKey e.2)).sum
    top := es.head?
    recordCount := records }

/-- Compute the pivot for a valid (dimension, metric) pair. -/
def computePivot (dimension metric : String)
    (deals : List NormalizedDeal) (wos : List NormalizedWorkOrder) : PivotResult :=
  if metric = "deal_count" then
    mkPivotResult
      (pivotDealEntries dimension (fun g => PivotCell.num (g.length : ℚ)) deals)
      deals.length
  else if metric = "deal_value" then
    mkPivotResult
      (pivotDealEntries dimension (fun g => PivotCell.num (openValueSum g)) deals)
      deals.length
  else if metric = "win_rate" then
    mkPivotResult (pivotDealEntries dimension winRate deals) deals.length
  else if metric = "wo_count" then
    mkPivotResult
      (pivotWoEntries dimension (fun g => PivotCell.num (g.length : ℚ)) wos)
      wos.length
  else if metric = "billed" then
    mkPivotResult
      (pivotWoEntries dimension
        (fun g => PivotCell.num ((g.map (fun w => w.billedInclGst)).sum)) wos)
      wos.length
  else if metric = "collected" then
    mkPivotResult
      (pivotWoEntries dimension
        (fun g => PivotCell.num ((g.map (fun w => w.collected)).sum)) wos)
      wos.length
  else
    mkPivotResult
      (pivotWoEntries dimension
        (fun g => PivotCell.num ((g.map (fun w => w.receivable)).sum)) wos)
      wos.length

/-- Modelled from the spec: the ad-hoc pivot endpoint accepts only the
enumerated (dimension, metric) pairs and fails immediately with
`UnsupportedPivot` on any other combination, never returning an empty
or guessed result. -/
def runAdhoc (dimension metric : String)
    (deals : List NormalizedDeal) (wos : List NormalizedWorkOrder) :
    Except PivotError PivotResult :=
  if dimension ∈ validDimensions ∧ metric ∈ validMetrics then
    Except.ok (computePivot dimension metric deals wos)
  else Except.error PivotError.UnsupportedPivot

instance instDecidableEqExceptPivot :
    DecidableEq (Except PivotError PivotResult) := fun a b =>
  match a, b with
  | Except.ok x, Except.ok y =>
      if h : x = y then isTrue (by rw [h])
      else isFalse (by intro hh; cases hh; exact h rfl)
  | Except.error x, Except.error y =>
      if h : x = y then isTrue (by rw [h])
      else isFalse (by intro hh; cases hh; exact h rfl)
  | Except.ok _, Except.error _ => isFalse (by intro hh; cases hh)
  | Except.error _, Except.ok _ => isFalse (by intro hh; cases hh)

/-! ### Snapshot Cache coalescing

Modelled from the spec: the snapshot cache is not part of the source
tree; §4.3 and §9 describe an atomically swapped snapshot guarded by a
coalescing in-flight-request map.  We model two callers running
`getOrRefresh` for the same board against an empty cache as an
interleaved transition system and count Board Client fetches. -/

/-- Program counter of one `getOrRefresh` caller. -/
inductive CallerPC
  | start
  | leader
  | waiting
  | done
deriving DecidableEq, Repr

/-- Shared cache state plus the two callers' program counters and the
number of Board Client fetches issued so far. -/
structure CacheSt where
  cacheFilled : Bool
  inflight : Bool
  fetches : Nat
  pcA : CallerPC
  pcB : CallerPC
deriving DecidableEq, Repr

/-- One step of a `getOrRefresh` caller: a fresh cache is served
directly; an in-flight refresh is awaited; otherwise the caller
registers as the single in-flight refresh and issues the fetch.  The
leader's next step completes the fetch and atomically replaces the
snapshot; a waiter completes once no refresh is in flight. -/
def stepPC (pc : CallerPC) (s : CacheSt) : CallerPC × Bool × Bool × Nat :=
  match pc with
  | CallerPC.start =>
      if s.cacheFilled then (CallerPC.done, s.cacheFilled, s.inflight, s.fetches)
      else if s.inflight then (CallerPC.waiting, s.cacheFilled, s.inflight, s.fetches)
      else (CallerPC.leader, s.cacheFilled, true, s.fetches + 1)
  | CallerPC.leader => (CallerPC.done, true, false, s.fetches)
  | CallerPC.waiting =>
      if s.inflight then (CallerPC.waiting, s.cacheFilled, s.inflight, s.fetches)
      else (CallerPC.done, s.cacheFilled, s.inflight, s.fetches)
  | CallerPC.done => (CallerPC.done, s.cacheFilled, s.inflight, s.fetches)

/-- Scheduler step: `true` steps caller A, `false` steps caller B. -/
def stepOn (choice : Bool) (s : CacheSt) : CacheSt :=
  if choice then
    let r := stepPC s.pcA s
    { cacheFilled := r.2.1, inflight := r.2.2.1, fetches := r.2.2.2,
      pcA := r.1, pcB := s.pcB }
  else
    let r := stepPC s.pcB s
    { cacheFilled := r.2.1, inflight := r.2.2.1, fetches := r.2.2.2,
      pcA := s.pcA, pcB := r.1 }

/-- Run a whole schedule of interleaving choices. -/
def execSched (s : CacheSt) : List Bool → CacheSt
  | [] => s
  | c :: cs => execSched (stepOn c s) cs

/-- Initial state: empty (or expired) cache, no refresh in flight, two
callers about to run `getOrRefresh` for the same board. -/
def initSt : CacheSt :=
  { cacheFilled := false, inflight := false, fetches := 0,
    pcA := CallerPC.start, pcB := CallerPC.start }

/-- Coalescing invariant of the cache machine. -/
def CacheInv (s : CacheSt) : Prop :=
  (s.fetches = if s.cacheFilled ∨ s.inflight then 1 else 0) ∧
  (s.inflight = true ↔ (s.pcA = CallerPC.leader ∨ s.pcB = CallerPC.leader)) ∧
  ¬(s.pcA = CallerPC.leader ∧ s.pcB = CallerPC.leader) ∧
  (s.cacheFilled = true → s.inflight = false) ∧
  (s.pcA = CallerPC.waiting → s.inflight = true ∨ s.cacheFilled = true) ∧
  (s.pcB = CallerPC.waiting → s.inflight = true ∨ s.cacheFilled = true) ∧
  (s.pcA = CallerPC.done → s.cacheFilled = true) ∧
  (s.pcB = CallerPC.done → s.cacheFilled = true)

/-! ### Backend API helpers (src/frontend/src/App.jsx, api.js section)

The fetch helpers are embedded over a model of an HTTP response whose
body either failed to parse as JSON (`none`) or parsed to a JSON
value. -/

/-- A JSON value, as produced by `response.json()`. -/
inductive JsValue
  | jnull
  | jbool (b : Bool)
  | jnum (q : ℚ)
  | jstr (s : String)
  | jarr (xs : List JsValue)
  | jobj (fields : List (String × JsValue))

mutual

/-- JavaScript string coercion of a JSON value (as used by the `Error`
constructor); arrays join their elements with commas, nulls rendering
as the empty string, and objects render as "[object Object]". -/
def jsToString : JsValue → String
  | JsValue.jnull => "null"
  | JsValue.jbool b => if b then "true" else "false"
  | JsValue.jnum q => printRatS q
  | JsValue.jstr s => s
  | JsValue.jarr xs => jsArrToString xs
  | JsValue.jobj _ => "[object Object]"

/-- Comma-joined rendering of a JSON array, `null` elements rendering
as the empty string. -/
def jsArrToString : List JsValue → String
  | [] => ""
  | [JsValue.jnull] => ""
  | [x] => jsToString x
  | JsValue.jnull :: xs => "," ++ jsArrToString xs
  | x :: xs => jsToString x ++ "," ++ jsArrToString xs

end

/-- JavaScript truthiness of a JSON value. -/
def truthy : JsValue → Bool
  | JsValue.jnull => false
  | JsValue.jbool b => b
  | JsValue.jnum q => decide (q ≠ 0)
  | JsValue.jstr s => decide (s ≠ "")
  | JsValue.jarr _ => true
  | JsValue.jobj _ => true

/-- First-match field lookup in a JSON object. -/
def lookupField (fields : List (String × JsValue)) (k : String) : Option JsValue :=
  List.lookup k fields

/-- The error-detail field name used by the backend. -/
def detailKey : String := "detail"

/-- Model of an HTTP response as seen by the api.js helpers: the `ok`
flag, the status code, and the body's JSON parse result (`none` when
`response.json()` rejects). -/
structure JsResponse where
  ok : Bool
  status : Nat
  body : Option JsValue

/-- What a helper throws. -/
inductive JsThrown
  | errorMsg (msg : String)
  | typeError
  | syntaxError
deriving DecidableEq, Repr

/-- Outcome of a helper call: the resolved JSON value or a thrown
exception. -/
inductive ApiOutcome
  | success (v : JsValue)
  | thrown (t : JsThrown)

/-- The fallback message `Server error ${response.status}`. -/
def serverErrorMsg (status : Nat) : String :=
  "Server error " ++ toString status

/-- Embedding of the non-ok error path shared by sendMessage,
getLeadershipUpdate, runAdhocAnalysis and fetchDashboardData: the body
is parsed with a fallback to an empty object on parse failure, and the
thrown Error carries the detail property when truthy, otherwise the
Server error fallback message.  Property access on a JSON null body
throws a TypeError, mirroring JavaScript member access on null. -/
def nonOkThrown (status : Nat) (body : Option JsValue) : JsThrown :=
  match body.getD (JsValue.jobj []) with
  | JsValue.jnull => JsThrown.typeError
  | JsValue.jobj fs =>
      match lookupField fs detailKey with
      | some d =>
          if truthy d then JsThrown.errorMsg (jsToString d)
          else JsThrown.errorMsg (serverErrorMsg status)
      | none => JsThrown.errorMsg (serverErrorMsg status)
  | _ => JsThrown.errorMsg (serverErrorMsg status)

/-- Shared shape of the four JSON-posting helpers in api.js. -/
def stdFetchResult (resp : JsResponse) : ApiOutcome :=
  if resp.ok then
    match resp.body with
    | some v => ApiOutcome.success v
    | none => ApiOutcome.thrown JsThrown.syntaxError
  else ApiOutcome.thrown (nonOkThrown resp.status resp.body)

/-- Embedding of `sendMessage` (api.js). -/
def sendMessageResult (resp : JsResponse) : ApiOutcome := stdFetchResult resp

/-- Embedding of `getLeadershipUpdate` (api.js). -/
def getLeadershipUpdateResult (resp : JsResponse) : ApiOutcome := stdFetchResult resp

/-- Embedding of `runAdhocAnalysis` (api.js). -/
def runAdhocAnalysisResult (resp : JsResponse) : ApiOutcome := stdFetchResult resp

/-- Embedding of `fetchDashboardData` (api.js). -/
def fetchDashboardDataResult (resp : JsResponse) : ApiOutcome := stdFetchResult resp

/-- Embedding of `refreshCache` (api.js): a non-ok response throws
`new Error("Cache refresh failed")` without reading the body. -/
def refreshCacheResult (resp : JsResponse) : ApiOutcome :=
  if resp.ok then
    match resp.body with
    | some v => ApiOutcome.success v
    | none => ApiOutcome.thrown JsThrown.syntaxError
  else ApiOutcome.thrown (JsThrown.errorMsg ("Cache refresh failed"))

/-- The amended message policy, written from the corrected claim: the
thrown message is the body's detail value when the body parses to a
JSON value other than null carrying a truthy detail property; it is the
Server error fallback when parsing fails, the parse is not an object,
or the detail property is absent or falsy; a body parsing to JSON null
raises a TypeError from the property access instead. -/
def amendedThrownSpec (status : Nat) (body : Option JsValue) : JsThrown :=
  match body with
  | none => JsThrown.errorMsg (serverErrorMsg status)
  | some JsValue.jnull => JsThrown.typeError
  | some (JsValue.jobj fs) =>
      match lookupField fs detailKey with
      | some d =>
          if truthy d then JsThrown.errorMsg (jsToString d)
          else JsThrown.errorMsg (serverErrorMsg status)
      | none => JsThrown.errorMsg (serverErrorMsg status)
  | some _ => JsThrown.errorMsg (serverErrorMsg status)

/-! ### Chat submit guard (src/frontend/src/App.jsx submitMessage) -/

/-- One chat message. -/
structure ChatMsg where
  role : String
  content : String
deriving DecidableEq, Repr

/-- The component state read and written by `submitMessage`. -/
structure ChatState where
  messages : List ChatMsg
  input : String
  isLoading : Bool
deriving DecidableEq, Repr

/-- `String.trim` as used by the component (model). -/
def trimS (s : String) : String := String.mk (trimChars s.data)

/-- Embedding of the synchronous prefix of `submitMessage`:
`const userMsg = text || input.trim(); if (!userMsg || isLoading)
return;` then clear the input, append the user message and start the
request.  The returned flag records whether a network request was
issued. -/
def submitUserMsg (text : Option String) (st : ChatState) : String :=
  match text with
  | some t => if t = "" then trimS st.input else t
  | none => trimS st.input

/-- Guard and effect of one `submitMessage` call. -/
def submitMessage (text : Option String) (st : ChatState) : ChatState × Bool :=
  if submitUserMsg text st = "" ∨ st.isLoading then (st, false)
  else
    ({ messages := st.messages ++ [⟨"user", submitUserMsg text st⟩], input := "",
       isLoading := true }, true)

/-! ### Concrete scenario data used by the examples -/

/-- The raw deal of the documentation's example scenario. -/
def exampleRawDeal : RawItem :=
  [(dealStatusTitle, some ("Open")),
   (maskedValueTitle, some errorSentinel),
   (sectorServiceTitle, some ("Energy"))]

/-- A duplicated header row of the Deals board. -/
def headerDupRow : RawItem := [(dealStatusTitle, some dealStatusTitle)]

/-- A deal with a given status and sector (other fields defaulted). -/
def mkDeal (status : DealStatus) (sector : String) : NormalizedDeal :=
  { owner := "Unknown", client := "Unknown", status := status,
    closeDate := DateField.notSet, probability := Probability.Unknown,
    value := 0, tentativeCloseDate := DateField.notSet, stage := "Unknown",
    product := "Unknown", sector := sector, createdDate := DateField.notSet }

/-- The win-rate example board: Energy has 3 Won and 1 Dead deal,
Telecom has neither Won nor Dead deals. -/
def exampleBoard : List NormalizedDeal :=
  [mkDeal DealStatus.Won ("Energy"), mkDeal DealStatus.Won ("Energy"),
   mkDeal DealStatus.Won ("Energy"), mkDeal DealStatus.Dead ("Energy"),
   mkDeal DealStatus.Open ("Telecom"), mkDeal DealStatus.Open ("Telecom")]

/-- The example magnitude 2186.54 in reduced form. -/
def exampleMagnitude : ℚ := ⟨109327, 50, by norm_num, by decide⟩

/-- A non-ok response whose body is valid JSON with an empty-string
detail field. -/
def respEmptyDetail : JsResponse :=
  { ok := false, status := 500,
    body := some (JsValue.jobj [(detailKey, JsValue.jstr (""))]) }

/-! ## Lemmas: digits and positional printing -/

theorem digitVal_digitCh {d : Nat} (h : d < 10) : digitVal (digitCh d) = d := by
  interval_cases d <;> decide

theorem isDigitCh_digitCh {d : Nat} (h : d < 10) : isDigitCh (digitCh d) = true := by
  interval_cases d <;> decide

theorem foldl_digitsVal (ds : List Nat) (a : Nat) (h : ∀ d ∈ ds, d < 10) :
    ((ds.reverse.map digitCh).foldl (fun v c => 10 * v + digitVal c) a)
      = Nat.ofDigits 10 ds + a * 10 ^ ds.length := by
  induction ds generalizing a with
  | nil => simp
  | cons d t ih =>
    have hd : d < 10 := h d (by simp)
    have ht : ∀ x ∈ t, x < 10 := fun x hx => h x (by simp [hx])
    simp only [List.reverse_cons, List.map_append, List.foldl_append, List.map_cons,
      List.map_nil, List.foldl_cons, List.foldl_nil]
    rw [ih a ht, digitVal_digitCh hd, Nat.ofDigits_cons, List.length_cons, pow_succ]
    ring

theorem digitsVal_natToChars (n : Nat) : digitsVal (natToChars n) = n := by
  by_cases h : n = 0
  · subst h; decide
  · unfold natToChars digitsVal
    rw [if_neg h, foldl_digitsVal _ _ (fun d hd => Nat.digits_lt_base (by norm_num) hd),
      Nat.ofDigits_digits]
    simp

theorem natToChars_ne_nil (n : Nat) : natToChars n ≠ [] := by
  by_cases h : n = 0
  · subst h; decide
  · unfold natToChars
    rw [if_neg h]
    intro hnil
    have : Nat.digits 10 n ≠ [] := Nat.digits_ne_nil_iff_ne_zero.mpr h
    simp at hnil
    exact this hnil

theorem natToChars_all_digits (n : Nat) :
    ∀ c ∈ natToChars n, isDigitCh c = true := by
  intro c hc
  by_cases h : n = 0
  · subst h
    have : natToChars 0 = ['0'] := rfl
    rw [this, List.mem_singleton] at hc
    subst hc; decide
  · unfold natToChars at hc
    rw [if_neg h] at hc
    obtain ⟨d, hd, rfl⟩ := List.mem_map.mp hc
    exact isDigitCh_digitCh (Nat.digits_lt_base (by norm_num) (List.mem_reverse.mp hd))

theorem length_natToChars_le {n k : Nat} (hk : 1 ≤ k) (h : n < 10 ^ k) :
    (natToChars n).length ≤ k := by
  by_cases hn : n = 0
  · subst hn; simpa [natToChars] using hk
  · unfold natToChars
    rw [if_neg hn]
    simp only [List.length_map, List.length_reverse]
    have hb := Nat.base_pow_length_digits_le 10 n (by norm_num) hn
    by_contra hgt
    push_neg at hgt
    have h1 : 10 ^ (k + 1) ≤ 10 ^ (Nat.digits 10 n).length :=
      Nat.pow_le_pow_right (by norm_num) hgt
    have h2 : 10 * n < 10 * 10 ^ k := by omega
    rw [← pow_succ'] at h2
    omega

theorem foldl_replicate_zero (j : Nat) :
    List.foldl (fun v c => 10 * v + digitVal c) 0 (List.replicate j '0') = 0 := by
  induction j with
  | zero => rfl
  | succ m ih => simpa [List.replicate_succ] using ih

theorem digitsVal_padZeros (k : Nat) (cs : List Char) :
    digitsVal (padZeros k cs) = digitsVal cs := by
  unfold digitsVal padZeros
  rw [List.foldl_append, foldl_replicate_zero]

theorem length_padZeros {k : Nat} {cs : List Char} (h : cs.length ≤ k) :
    (padZeros k cs).length = k := by
  simp only [padZeros, List.length_append, List.length_replicate]
  omega

theorem padZeros_all_digits (k : Nat) (cs : List Char)
    (h : ∀ c ∈ cs, isDigitCh c = true) :
    ∀ c ∈ padZeros k cs, isDigitCh c = true := by
  intro c hc
  rcases List.mem_append.mp hc with h0 | h1
  · have := List.eq_of_mem_replicate h0
    subst this; decide
  · exact h c h1

/-! ## Lemmas: spans of predicates over character lists -/

theorem takeWhile_all_eq {p : Char → Bool} {l : List Char}
    (h : ∀ a ∈ l, p a = true) : l.takeWhile p = l := by
  induction l with
  | nil => rfl
  | cons a t ih =>
    rw [List.takeWhile_cons, h a (by simp)]
    simp [ih (fun x hx => h x (List.mem_cons_of_mem a hx))]

theorem dropWhile_all_eq {p : Char → Bool} {l : List Char}
    (h : ∀ a ∈ l, p a = true) : l.dropWhile p = [] := by
  induction l with
  | nil => rfl
  | cons a t ih =>
    rw [List.dropWhile_cons, h a (by simp)]
    simp [ih (fun x hx => h x (List.mem_cons_of_mem a hx))]

theorem takeWhile_span {p : Char → Bool} {A : List Char} {c : Char}
    {B : List Char} (hA : ∀ a ∈ A, p a = true) (hc : p c = false) :
    (A ++ c :: B).takeWhile p = A ∧ (A ++ c :: B).dropWhile p = c :: B := by
  induction A with
  | nil =>
    constructor
    · simp [List.takeWhile_cons, hc]
    · simp [List.dropWhile_cons, hc]
  | cons a t ih =>
    have ha : p a = true := hA a (by simp)
    have ht : ∀ x ∈ t, p x = true := fun x hx => hA x (List.mem_cons_of_mem a hx)
    obtain ⟨ih1, ih2⟩ := ih ht
    constructor
    · simp [List.cons_append, List.takeWhile_cons, ha, ih1]
    · simp [List.cons_append, List.dropWhile_cons, ha, ih2]

theorem dropWhile_eq_self_of_head {p : Char → Bool} {l : List Char}
    (h : ∀ c, l.head? = some c → p c = false) : l.dropWhile p = l := by
  cases l with
  | nil => rfl
  | cons a t =>
    rw [List.dropWhile_cons, h a rfl]
    simp

theorem head?_dropWhile {p : Char → Bool} {l : List Char} {c : Char}
    (h : (l.dropWhile p).head? = some c) : p c = false := by
  induction l with
  | nil => simp at h
  | cons a t ih =>
    rw [List.dropWhile_cons] at h
    cases hpa : p a
    · rw [hpa] at h
      simp at h
      subst h
      exact hpa
    · rw [hpa] at h
      simp at h
      exact ih h

/-! ## Lemmas: trimming -/

theorem trimChars_eq_self {l : List Char} (h : ∀ c ∈ l, isWs c = false) :
    trimChars l = l := by
  have h1 : l.dropWhile isWs = l :=
    dropWhile_eq_self_of_head (fun c hc =>
      h c (List.mem_of_mem_head? (Option.mem_def.mpr hc)))
  have h2 : l.reverse.dropWhile isWs = l.reverse :=
    dropWhile_eq_self_of_head (fun c hc =>
      h c (List.mem_reverse.mp (List.mem_of_mem_head? (Option.mem_def.mpr hc))))
  calc trimChars l = ((l.dropWhile isWs).reverse.dropWhile isWs).reverse := rfl
    _ = l := by rw [h1, h2, List.reverse_reverse]

theorem trimChars_cons_ws {c : Char} {l : List Char} (h : isWs c = true) :
    trimChars (c :: l) = trimChars l := by
  have hstep : (c :: l).dropWhile isWs = l.dropWhile isWs := by
    rw [List.dropWhile_cons, h]
    simp
  calc trimChars (c :: l)
      = (((c :: l).dropWhile isWs).reverse.dropWhile isWs).reverse := rfl
    _ = trimChars l := by rw [hstep]; rfl

theorem trimChars_head {l : List Char} {c : Char}
    (h : (trimChars l).head? = some c) : isWs c = false := by
  have h' : ((l.dropWhile isWs).reverse.dropWhile isWs).reverse.head? = some c := h
  set r := l.dropWhile isWs with hr
  set X := r.reverse.dropWhile isWs with hX
  have hsuf : X <:+ r.reverse := List.dropWhile_suffix isWs
  obtain ⟨t, ht⟩ := hsuf
  have hrparts : X.reverse ++ t.reverse = r := by
    have := congrArg List.reverse ht
    simpa [List.reverse_append] using this
  have hhead : r.head? = some c := by
    rw [← hrparts, List.head?_append]
    cases hXr : X.reverse with
    | nil => rw [hXr] at h'; simp at h'
    | cons x xs =>
      rw [hXr] at h'
      simp only [List.head?_cons, Option.some_inj] at h'
      simp [h']
  exact head?_dropWhile hhead

theorem trimChars_last {l : List Char} {c : Char}
    (h : (trimChars l).reverse.head? = some c) : isWs c = false := by
  have h' : ((l.dropWhile isWs).reverse.dropWhile isWs).reverse.reverse.head? = some c := h
  rw [List.reverse_reverse] at h'
  exact head?_dropWhile h'

theorem trimChars_trimChars (l : List Char) :
    trimChars (trimChars l) = trimChars l := by
  have h1 : (trimChars l).dropWhile isWs = trimChars l :=
    dropWhile_eq_self_of_head (fun c hc => trimChars_head hc)
  have h2 : (trimChars l).reverse.dropWhile isWs = (trimChars l).reverse :=
    dropWhile_eq_self_of_head (fun c hc => trimChars_last hc)
  calc trimChars (trimChars l)
      = (((trimChars l).dropWhile isWs).reverse.dropWhile isWs).reverse := rfl
    _ = trimChars l := by rw [h1, h2, List.reverse_reverse]

/-! ## Lemmas: the printing exponent -/

theorem dvd_ten_pow_self {den K : Nat} (hden : den ≠ 0) (h : den ∣ 10 ^ K) :
    den ∣ 10 ^ den := by
  rw [← Nat.factorization_le_iff_dvd hden (pow_ne_zero _ (by norm_num))]
  rw [Nat.factorization_pow]
  rw [Finsupp.le_def]
  intro p
  by_cases hp0 : den.factorization p = 0
  · simp [hp0]
  · have hp : p.Prime := by
      by_contra hnp
      exact hp0 (Nat.factorization_eq_zero_of_non_prime den hnp)
    have hpden : p ∣ den := by
      have : p ∈ den.factorization.support := Finsupp.mem_support_iff.mpr hp0
      rw [Nat.support_factorization] at this
      exact Nat.dvd_of_mem_primeFactors this
    have hp10 : p ∣ 10 := hp.dvd_of_dvd_pow (hpden.trans h)
    have hf10 : 0 < (Nat.factorization 10) p :=
      Nat.Prime.factorization_pos_of_dvd hp (by norm_num) hp10
    have hbound : den.factorization p ≤ den := by
      have hdvd : p ^ den.factorization p ∣ den := Nat.ordProj_dvd den p
      have h1 : p ^ den.factorization p ≤ den :=
        Nat.le_of_dvd (Nat.pos_of_ne_zero hden) hdvd
      have h2 : den.factorization p < 2 ^ den.factorization p :=
        Nat.lt_two_pow _
      have h3 : 2 ^ den.factorization p ≤ p ^ den.factorization p :=
        Nat.pow_le_pow_left hp.two_le _
      omega
    calc den.factorization p ≤ den := hbound
      _ ≤ den * (Nat.factorization 10) p := Nat.le_mul_of_pos_right den hf10
      _ = (den • Nat.factorization 10) p := by
        rw [Finsupp.smul_apply, smul_eq_mul]

theorem decExp_spec {den K : Nat} (hden : den ≠ 0) (h : den ∣ 10 ^ K) :
    ∃ k, decExp den = some k ∧ den ∣ 10 ^ k := by
  have hself : den ∣ 10 ^ den := dvd_ten_pow_self hden h
  cases hfind : decExp den with
  | none =>
    exfalso
    unfold decExp at hfind
    rw [List.find?_eq_none] at hfind
    refine hfind den (List.mem_range.mpr (by omega)) ?_
    simp [Nat.mod_eq_zero_of_dvd hself]
  | some k =>
    refine ⟨k, rfl, ?_⟩
    have := List.find?_some hfind
    rw [Nat.dvd_iff_mod_eq_zero]
    simpa using this

/-! ## Lemmas: parsing printed decimals -/

theorem parseUnsignedDec_int {cs : List Char} (hne : cs ≠ [])
    (hd : ∀ c ∈ cs, isDigitCh c = true) :
    parseUnsignedDec cs = some (digitsVal cs : ℚ) := by
  unfold parseUnsignedDec
  rw [takeWhile_all_eq hd, dropWhile_all_eq hd, if_neg hne]

theorem parseUnsignedDec_point {A B : List Char} (hA : A ≠ [])
    (hdA : ∀ c ∈ A, isDigitCh c = true) (hB : B ≠ [])
    (hdB : ∀ c ∈ B, isDigitCh c = true) :
    parseUnsignedDec (A ++ '.' :: B)
      = some ((digitsVal A : ℚ) + (digitsVal B : ℚ) / 10 ^ B.length) := by
  obtain ⟨h1, h2⟩ := takeWhile_span hdA (show isDigitCh '.' = false by decide)
  unfold parseUnsignedDec
  rw [h1, h2, if_neg hA]
  show (if B ≠ [] ∧ B.all isDigitCh = true then
      some ((digitsVal A : ℚ) + (digitsVal B : ℚ) / 10 ^ B.length)
    else none) = some ((digitsVal A : ℚ) + (digitsVal B : ℚ) / 10 ^ B.length)
  rw [if_pos ⟨hB, by simpa [List.all_eq_true] using hdB⟩]

theorem cast_print_n {q : ℚ} {k : Nat} (h0 : 0 ≤ q)
    (hdvd : (q.den : ℕ) ∣ 10 ^ k) :
    ((q.num.toNat * (10 ^ k / q.den) : ℕ) : ℚ) = q * 10 ^ k := by
  have hdQ : (q.den : ℚ) ≠ 0 := by
    have := q.den_nz
    exact_mod_cast this
  have hnum : ((q.num.toNat : ℕ) : ℚ) = (q.num : ℚ) := by
    exact_mod_cast Int.toNat_of_nonneg (Rat.num_nonneg.mpr h0)
  have hq : (q.num : ℚ) = q * (q.den : ℚ) := (div_eq_iff hdQ).mp (Rat.num_div_den q)
  rw [Nat.cast_mul, hnum, Nat.cast_div hdvd hdQ, hq]
  push_cast
  field_simp
  linear_combination (10 : ℚ) ^ k * hq

theorem parseUnsignedDec_printNonneg {q : ℚ} (h0 : 0 ≤ q) (hrep : DecimalRep q) :
    parseUnsignedDec (printNonnegRat q) = some q := by
  obtain ⟨K, hK⟩ := hrep
  obtain ⟨k, hfind, hdvd⟩ := decExp_spec q.den_nz hK
  have hcast := cast_print_n h0 hdvd
  unfold printNonnegRat
  rw [hfind]
  show parseUnsignedDec (printWithExp q k) = some q
  unfold printWithExp
  by_cases hk : k = 0
  · subst hk
    rw [if_pos rfl]
    rw [parseUnsignedDec_int (natToChars_ne_nil _) (natToChars_all_digits _)]
    rw [digitsVal_natToChars]
    simpa using hcast
  · rw [if_neg hk]
    have hk1 : 1 ≤ k := Nat.one_le_iff_ne_zero.mpr hk
    have hpow : 0 < 10 ^ k := by positivity
    have hmod : q.num.toNat * (10 ^ k / q.den) % 10 ^ k < 10 ^ k :=
      Nat.mod_lt _ hpow
    have hlen : (natToChars (q.num.toNat * (10 ^ k / q.den) % 10 ^ k)).length ≤ k :=
      length_natToChars_le hk1 hmod
    have hBne : padZeros k (natToChars (q.num.toNat * (10 ^ k / q.den) % 10 ^ k)) ≠ [] := by
      have := length_padZeros hlen
      intro hnil
      rw [hnil] at this
      simp at this
      omega
    rw [parseUnsignedDec_point (natToChars_ne_nil _) (natToChars_all_digits _)
      hBne (padZeros_all_digits _ _ (natToChars_all_digits _))]
    rw [digitsVal_natToChars, digitsVal_padZeros, digitsVal_natToChars,
      length_padZeros hlen]
    have hdm : 10 ^ k * (q.num.toNat * (10 ^ k / q.den) / 10 ^ k) +
        q.num.toNat * (10 ^ k / q.den) % 10 ^ k
        = q.num.toNat * (10 ^ k / q.den) := Nat.div_add_mod _ _
    have hdmQ : ((10 : ℚ) ^ k) * ((q.num.toNat * (10 ^ k / q.den) / 10 ^ k : ℕ) : ℚ) +
        ((q.num.toNat * (10 ^ k / q.den) % 10 ^ k : ℕ) : ℚ)
        = ((q.num.toNat * (10 ^ k / q.den) : ℕ) : ℚ) := by
      exact_mod_cast hdm
    rw [hcast] at hdmQ
    have h10 : ((10 : ℚ) ^ k) ≠ 0 := by positivity
    rw [Option.some_inj]
    field_simp
    linarith [hdmQ]

theorem printNonneg_head (q : ℚ) :
    ∃ c cs, printNonnegRat q = c :: cs ∧ isDigitCh c = true := by
  unfold printNonnegRat
  cases hfind : decExp q.den with
  | none => exact ⟨'0', [], rfl, by decide⟩
  | some k =>
    show ∃ c cs, printWithExp q k = c :: cs ∧ isDigitCh c = true
    unfold printWithExp
    by_cases hk : k = 0
    · subst hk
      rw [if_pos rfl]
      cases hA : natToChars (q.num.toNat * (10 ^ 0 / q.den)) with
      | nil => exact absurd hA (natToChars_ne_nil _)
      | cons c cs =>
        refine ⟨c, cs, rfl, ?_⟩
        exact natToChars_all_digits _ c (by rw [hA]; exact List.mem_cons_self c cs)
    · rw [if_neg hk]
      cases hA : natToChars (q.num.toNat * (10 ^ k / q.den) / 10 ^ k) with
      | nil => exact absurd hA (natToChars_ne_nil _)
      | cons c cs =>
        refine ⟨c, cs ++ '.' :: padZeros k (natToChars (q.num.toNat * (10 ^ k / q.den) % 10 ^ k)), ?_, ?_⟩
        · rfl
        · exact natToChars_all_digits _ c (by rw [hA]; exact List.mem_cons_self c cs)

theorem parseDec_printNonneg {q : ℚ} (h0 : 0 ≤ q) (hrep : DecimalRep q) :
    parseDec (printNonnegRat q) = some q := by
  obtain ⟨c, cs, hpr, hc⟩ := printNonneg_head q
  unfold parseDec
  have hcne : c ≠ '-' := by
    intro he
    rw [he] at hc
    exact absurd hc (by decide)
  rw [hpr]
  rw [if_neg (by simp [hcne])]
  rw [← hpr]
  exact parseUnsignedDec_printNonneg h0 hrep

theorem parseDec_printRat {q : ℚ} (hrep : DecimalRep q) :
    parseDec (printRat q) = some q := by
  by_cases hneg : q < 0
  · unfold printRat
    rw [if_pos hneg]
    unfold parseDec
    simp only [List.head?_cons, if_pos rfl, List.tail_cons]
    have hrep' : DecimalRep (-q) := by
      obtain ⟨K, hK⟩ := hrep
      exact ⟨K, by rwa [Rat.neg_den]⟩
    rw [parseUnsignedDec_printNonneg (by linarith) hrep']
    simp
  · unfold printRat
    rw [if_neg hneg]
    exact parseDec_printNonneg (not_lt.mp hneg) hrep

/-! ## Lemmas: inverting the decimal parser -/

theorem parseUnsignedDec_inv {l : List Char} {q : ℚ}
    (h : parseUnsignedDec l = some q) :
    l.takeWhile isDigitCh ≠ [] ∧
      ((l.dropWhile isDigitCh = [] ∧ q = (digitsVal (l.takeWhile isDigitCh) : ℚ)) ∨
        (∃ fp, l.dropWhile isDigitCh = '.' :: fp ∧ fp ≠ [] ∧
          fp.all isDigitCh = true ∧
          q = (digitsVal (l.takeWhile isDigitCh) : ℚ) +
            (digitsVal fp : ℚ) / 10 ^ fp.length)) := by
  unfold parseUnsignedDec at h
  split at h
  · exact absurd h (by simp)
  · next hip =>
    refine ⟨hip, ?_⟩
    split at h
    · next heq =>
      rw [Option.some_inj] at h
      exact Or.inl ⟨heq, h.symm⟩
    · next fp heq =>
      split at h
      · next hcond =>
        rw [Option.some_inj] at h
        exact Or.inr ⟨fp, heq, hcond.1, hcond.2, h.symm⟩
      · exact absurd h (by simp)
    · exact absurd h (by simp)

theorem den_dvd_pow_ten (a b L : Nat) :
    ((a : ℚ) + (b : ℚ) / 10 ^ L).den ∣ 10 ^ L := by
  have h10 : ((10 : ℚ) ^ L) ≠ 0 := by positivity
  have hval : (a : ℚ) + (b : ℚ) / 10 ^ L
      = ((a * 10 ^ L + b : ℕ) : ℚ) / ((10 ^ L : ℕ) : ℚ) := by
    push_cast
    field_simp
  rw [hval]
  have hdi : ((a * 10 ^ L + b : ℕ) : ℚ) / ((10 ^ L : ℕ) : ℚ)
      = Rat.divInt ((a * 10 ^ L + b : ℕ) : ℤ) ((10 ^ L : ℕ) : ℤ) := by
    rw [Rat.divInt_eq_div]
    push_cast
    ring
  rw [hdi]
  have hd := Rat.den_dvd ((a * 10 ^ L + b : ℕ) : ℤ) ((10 ^ L : ℕ) : ℤ)
  exact_mod_cast hd

theorem decimalRep_parseUnsigned {l : List Char} {q : ℚ}
    (h : parseUnsignedDec l = some q) : DecimalRep q := by
  obtain ⟨-, hcase⟩ := parseUnsignedDec_inv h
  rcases hcase with ⟨-, rfl⟩ | ⟨fp, -, -, -, rfl⟩
  · exact ⟨0, by rw [Rat.den_natCast]; norm_num⟩
  · exact ⟨fp.length, den_dvd_pow_ten _ _ _⟩

theorem decimalRep_parseDec {l : List Char} {q : ℚ}
    (h : parseDec l = some q) : DecimalRep q := by
  unfold parseDec at h
  split at h
  · cases hu : parseUnsignedDec l.tail with
    | none => rw [hu] at h; simp at h
    | some r =>
      rw [hu] at h
      have h2 : -r = q := by simpa using h
      obtain ⟨K, hK⟩ := decimalRep_parseUnsigned hu
      exact ⟨K, by rw [← h2, Rat.neg_den]; exact hK⟩
  · exact decimalRep_parseUnsigned h

theorem ws_not_digit {c : Char} (h : isWs c = true) : isDigitCh c = false := by
  unfold isWs at h
  simp only [Bool.or_eq_true, beq_iff_eq] at h
  rcases h with ((rfl | rfl) | rfl) | rfl <;> decide

theorem parseUnsignedDec_no_ws {l : List Char} {q : ℚ}
    (h : parseUnsignedDec l = some q) : ∀ c ∈ l, isWs c = false := by
  obtain ⟨-, hcase⟩ := parseUnsignedDec_inv h
  intro c hc
  rw [← List.takeWhile_append_dropWhile (p := isDigitCh) (l := l)] at hc
  have hdigit_not_ws : isDigitCh c = true → isWs c = false := by
    intro hd
    cases hw : isWs c
    · rfl
    · rw [ws_not_digit hw] at hd
      exact absurd hd (by simp)
  rcases List.mem_append.mp hc with h1 | h2
  · exact hdigit_not_ws (List.mem_takeWhile_imp h1)
  · rcases hcase with ⟨hnil, -⟩ | ⟨fp, heq, -, hall, -⟩
    · rw [hnil] at h2
      simp at h2
    · rw [heq] at h2
      rcases List.mem_cons.mp h2 with rfl | h3
      · decide
      · exact hdigit_not_ws (List.all_eq_true.mp hall c h3)

theorem parseDec_no_ws {l : List Char} {q : ℚ}
    (h : parseDec l = some q) : ∀ c ∈ l, isWs c = false := by
  unfold parseDec at h
  split at h
  · next hhead =>
    cases hu : parseUnsignedDec l.tail with
    | none => rw [hu] at h; simp at h
    | some r =>
      intro c hc
      cases l with
      | nil => simp at hc
      | cons a t =>
        simp only [List.head?_cons, Option.some_inj] at hhead
        subst hhead
        rcases List.mem_cons.mp hc with rfl | h3
        · decide
        · exact parseUnsignedDec_no_ws hu c h3
  · exact parseUnsignedDec_no_ws h

theorem printNonneg_not_ws (q : ℚ) :
    ∀ c ∈ printNonnegRat q, isWs c = false := by
  intro c hc
  have hdigit_not_ws : isDigitCh c = true → isWs c = false := by
    intro hd
    cases hw : isWs c
    · rfl
    · rw [ws_not_digit hw] at hd
      exact absurd hd (by simp)
  unfold printNonnegRat at hc
  rcases hfind : decExp q.den with - | k
  · rw [hfind] at hc
    simp only [List.mem_singleton] at hc
    subst hc
    decide
  · rw [hfind] at hc
    have hc' : c ∈ printWithExp q k := hc
    unfold printWithExp at hc'
    by_cases hk : k = 0
    · rw [if_pos hk] at hc'
      exact hdigit_not_ws (natToChars_all_digits _ c hc')
    · rw [if_neg hk] at hc'
      rcases List.mem_append.mp hc' with h1 | h2
      · exact hdigit_not_ws (natToChars_all_digits _ c h1)
      · rcases List.mem_cons.mp h2 with rfl | h3
        · decide
        · exact hdigit_not_ws
            (padZeros_all_digits _ _ (natToChars_all_digits _) c h3)

theorem printRat_not_ws (q : ℚ) : ∀ c ∈ printRat q, isWs c = false := by
  intro c hc
  unfold printRat at hc
  by_cases hneg : q < 0
  · rw [if_pos hneg] at hc
    rcases List.mem_cons.mp hc with rfl | h3
    · decide
    · exact printNonneg_not_ws _ c h3
  · rw [if_neg hneg] at hc
    exact printNonneg_not_ws _ c hc

/-! ## Lemmas: composite quantity parsing -/

theorem parseQuantity_shape {num u : List Char} {m : ℚ} {ws : Char}
    (hnum : parseDec num = some m) (hws : isWs ws = true)
    (hu : u ≠ []) (hutrim : trimChars u = u) :
    parseQuantity (String.mk (num ++ ws :: u)) = (⟨m, String.mk u⟩, []) := by
  have hnumws : ∀ c ∈ num, (fun c => !isWs c) c = true := fun c hc => by
    show (!isWs c) = true
    rw [parseDec_no_ws hnum c hc]
    rfl
  have hwsneg : (fun c => !isWs c) ws = false := by
    simp only [hws]
    rfl
  obtain ⟨h1, h2⟩ := takeWhile_span hnumws hwsneg
  have hdata : (String.mk (num ++ ws :: u)).data = num ++ ws :: u := rfl
  unfold parseQuantity
  rw [hdata, h1, h2, hnum]
  have htrim : trimChars (ws :: u) = u := by
    rw [trimChars_cons_ws hws, hutrim]
  rw [htrim]
  show (if u = [] then ((⟨0, "Unknown"⟩ : QuantityValue), [FlagReason.UNPARSEABLE_NUMBER])
    else ((⟨m, String.mk u⟩ : QuantityValue), [])) = (⟨m, String.mk u⟩, [])
  rw [if_neg hu]

theorem parseQuantity_success {s : String} {qv : QuantityValue}
    (h : parseQuantity s = (qv, [])) :
    parseDec (s.data.takeWhile (fun c => !isWs c)) = some qv.magnitude ∧
      qv.unit = String.mk (trimChars (s.data.dropWhile (fun c => !isWs c))) ∧
      trimChars (s.data.dropWhile (fun c => !isWs c)) ≠ [] := by
  unfold parseQuantity at h
  split at h
  · next m hm =>
    split at h
    · simp at h
    · next hne =>
      simp only [Prod.mk.injEq] at h
      obtain ⟨hq, -⟩ := h
      subst hq
      exact ⟨hm, rfl, hne⟩
  · simp at h

theorem parseQuantity_roundtrip {s : String} {qv : QuantityValue}
    (h : parseQuantity s = (qv, [])) :
    parseQuantity (formatQuantity qv) = (qv, []) := by
  obtain ⟨hm, hu, hne⟩ := parseQuantity_success h
  have hrep : DecimalRep qv.magnitude := decimalRep_parseDec hm
  have hfmt : formatQuantity qv
      = String.mk (printRat qv.magnitude ++
          ' ' :: trimChars (s.data.dropWhile (fun c => !isWs c))) := by
    show printRatS qv.magnitude ++ " " ++ qv.unit = _
    rw [hu]
    apply String.ext
    rw [String.data_append, String.data_append]
    show printRat qv.magnitude ++ [' '] ++ trimChars (s.data.dropWhile (fun c => !isWs c)) = _
    simp
  rw [hfmt,
    parseQuantity_shape (parseDec_printRat hrep) (by decide) hne
      (trimChars_trimChars _)]
  rw [← hu]

theorem parseQuantity_fail {s : String}
    (h : parseDec (s.data.takeWhile (fun c => !isWs c)) = none ∨
         trimChars (s.data.dropWhile (fun c => !isWs c)) = []) :
    parseQuantity s = (⟨0, "Unknown"⟩, [FlagReason.UNPARSEABLE_NUMBER]) := by
  unfold parseQuantity
  rcases h with h | h
  · rw [h]
  · cases hm : parseDec (s.data.takeWhile (fun c => !isWs c)) with
    | none => rfl
    | some m =>
      show (if trimChars (s.data.dropWhile (fun c => !isWs c)) = [] then
          ((⟨0, "Unknown"⟩ : QuantityValue), [FlagReason.UNPARSEABLE_NUMBER])
        else (⟨m, String.mk (trimChars (s.data.dropWhile (fun c => !isWs c)))⟩, []))
        = (⟨0, "Unknown"⟩, [FlagReason.UNPARSEABLE_NUMBER])
      rw [if_pos h]

/-! ## Lemmas: currency field normalization -/

theorem parseCurrencyStr_nonneg (s : String) : 0 ≤ (parseCurrencyStr s).1 := by
  unfold parseCurrencyStr
  split
  · norm_num
  · split
    · norm_num
    · split
      · norm_num
      · next q hq =>
        split
        · norm_num
        · next hneg => simpa using le_of_not_lt hneg

theorem parseCurrency_nonneg (raw : Option String) : 0 ≤ (parseCurrency raw).1 := by
  cases raw with
  | none => exact le_refl _
  | some s => exact parseCurrencyStr_nonneg s

theorem parseCurrency_sentinel :
    parseCurrency (some errorSentinel) = (0, [FlagReason.ERROR_SENTINEL]) := by
  decide

theorem parseCurrency_none : parseCurrency none = (0, [FlagReason.MISSING]) := rfl

theorem parseCurrency_empty {s : String} (h : trimChars s.data = []) :
    parseCurrency (some s) = (0, [FlagReason.MISSING]) := by
  show parseCurrencyStr s = (0, [FlagReason.MISSING])
  unfold parseCurrencyStr
  rw [if_pos h]

theorem parseCurrency_negative {s : String} {q : ℚ}
    (hne : trimChars s.data ≠ []) (hsent : s ≠ errorSentinel)
    (hp : parseDecS s = some q) (hq : q < 0) :
    parseCurrency (some s) = (0, [FlagReason.NEGATIVE_VALUE]) := by
  show parseCurrencyStr s = (0, [FlagReason.NEGATIVE_VALUE])
  unfold parseCurrencyStr
  rw [if_neg hne, if_neg hsent, hp]
  show (if q < 0 then ((0 : ℚ), [FlagReason.NEGATIVE_VALUE]) else (q, []))
    = ((0 : ℚ), [FlagReason.NEGATIVE_VALUE])
  rw [if_pos hq]

/-! ## Lemmas: deduplication and ranking -/

theorem mem_dedupKeepFirst_aux :
    ∀ (n : Nat) (l : List String), l.length ≤ n →
      ∀ s, (s ∈ dedupKeepFirst l ↔ s ∈ l) := by
  intro n
  induction n with
  | zero =>
    intro l hl s
    have : l = [] := List.eq_nil_of_length_eq_zero (Nat.le_zero.mp hl)
    subst this
    simp [dedupKeepFirst]
  | succ n ih =>
    intro l hl s
    cases l with
    | nil => simp [dedupKeepFirst]
    | cons x xs =>
      rw [dedupKeepFirst]
      simp only [List.mem_cons]
      have hlen : (xs.filter (fun y => y ≠ x)).length ≤ n := by
        have h1 := List.length_filter_le (fun y => decide (y ≠ x)) xs
        simp only [List.length_cons] at hl
        omega
      constructor
      · rintro (rfl | h)
        · exact Or.inl rfl
        · exact Or.inr (List.mem_filter.mp ((ih _ hlen s).mp h)).1
      · rintro (rfl | h)
        · exact Or.inl rfl
        · by_cases hx : s = x
          · exact Or.inl hx
          · exact Or.inr ((ih _ hlen s).mpr (List.mem_filter.mpr ⟨h, by simp [hx]⟩))

theorem mem_dedupKeepFirst {l : List String} {s : String} :
    s ∈ dedupKeepFirst l ↔ s ∈ l :=
  mem_dedupKeepFirst_aux l.length l (le_refl _) s

theorem mem_insertByDesc {key : α → ℚ} {x a : α} {l : List α} :
    a ∈ insertByDesc key x l ↔ a = x ∨ a ∈ l := by
  induction l with
  | nil => simp [insertByDesc]
  | cons y ys ih =>
    unfold insertByDesc
    split
    · simp only [List.mem_cons]
    · simp only [List.mem_cons, ih]
      tauto

theorem mem_sortByDesc {key : α → ℚ} {a : α} {l : List α} :
    a ∈ sortByDesc key l ↔ a ∈ l := by
  induction l with
  | nil => simp [sortByDesc]
  | cons y ys ih =>
    unfold sortByDesc
    rw [mem_insertByDesc]
    simp [ih]

theorem mem_rankEntries {es : List (String × PivotCell)} {e : String × PivotCell} :
    e ∈ rankEntries es ↔ e ∈ es := by
  unfold rankEntries
  rw [List.mem_append, mem_sortByDesc]
  constructor
  · rintro (h | h)
    · exact (List.mem_filter.mp h).1
    · exact (List.mem_filter.mp h).1
  · intro h
    by_cases hc : e.2 = PivotCell.insufficientData
    · exact Or.inr (List.mem_filter.mpr ⟨h, by simpa using hc⟩)
    · exact Or.inl (List.mem_filter.mpr ⟨h, by simpa using hc⟩)

theorem pivotDealEntries_mem {dimension : String}
    {cellOf : List NormalizedDeal → PivotCell} {ds : List NormalizedDeal}
    {s : String} (hs : s ∈ ds.map (dealKey dimension)) :
    (s, cellOf (ds.filter (fun d => dealKey dimension d = s)))
      ∈ pivotDealEntries dimension cellOf ds := by
  unfold pivotDealEntries
  rw [mem_rankEntries]
  exact List.mem_map.mpr ⟨s, mem_dedupKeepFirst.mpr hs, rfl⟩

/-! ## Lemmas: header-duplicate rows -/

theorem normalizeDeal_header {item : RawItem}
    (h : lookupRaw item dealStatusTitle = some dealStatusTitle) :
    normalizeDeal item = none := by
  unfold normalizeDeal
  rw [if_pos h]

theorem normalizeWorkOrder_header {item : RawItem}
    (h : lookupRaw item execStatusTitle = some execStatusTitle) :
    normalizeWorkOrder item = none := by
  unfold normalizeWorkOrder
  rw [if_pos h]

theorem normalizeDeals_append_header (rows : List RawItem) {hdr : RawItem}
    (h : lookupRaw hdr dealStatusTitle = some dealStatusTitle) :
    normalizeDeals (rows ++ [hdr]) = normalizeDeals rows := by
  unfold normalizeDeals
  rw [List.filterMap_append]
  simp [normalizeDeal_header h]

theorem normalizeWorkOrders_append_header (rows : List RawItem) {hdr : RawItem}
    (h : lookupRaw hdr execStatusTitle = some execStatusTitle) :
    normalizeWorkOrders (rows ++ [hdr]) = normalizeWorkOrders rows := by
  unfold normalizeWorkOrders
  rw [List.filterMap_append]
  simp [normalizeWorkOrder_header h]

/-! ## Lemmas: cache coalescing machine -/

instance cacheInvDecidable (s : CacheSt) : Decidable (CacheInv s) := by
  unfold CacheInv
  infer_instance

theorem cacheInv_init : CacheInv initSt := by decide

theorem cacheInv_step (c : Bool) (s : CacheSt) (h : CacheInv s) :
    CacheInv (stepOn c s) := by
  obtain ⟨cf, inf, f, pa, pb⟩ := s
  obtain ⟨h1, h2, h3, h4, h5, h6, h7, h8⟩ := h
  simp only at h1 h2 h3 h4 h5 h6 h7 h8
  cases cf <;> cases inf <;> simp at h1 <;> subst h1 <;>
    cases pa <;> cases pb <;> cases c <;>
    revert h2 h3 h4 h5 h6 h7 h8 <;> decide

theorem cacheInv_exec (sched : List Bool) (s : CacheSt) (h : CacheInv s) :
    CacheInv (execSched s sched) := by
  induction sched generalizing s with
  | nil => exact h
  | cons c cs ih => exact ih _ (cacheInv_step c s h)

/-! ## Lemmas: printing the example magnitude -/

theorem natToChars_2186 : natToChars 2186 = ['2', '1', '8', '6'] := by
  unfold natToChars
  rw [if_neg (by norm_num), show Nat.digits 10 2186 = [6, 8, 1, 2] from by simp]
  rfl

theorem natToChars_54 : natToChars 54 = ['5', '4'] := by
  unfold natToChars
  rw [if_neg (by norm_num), show Nat.digits 10 54 = [4, 5] from by simp]
  rfl

theorem exampleMagnitude_eq : (2186.54 : ℚ) = exampleMagnitude := by
  unfold exampleMagnitude
  rw [Rat.mk'_eq_divInt, Rat.divInt_eq_div]
  norm_num

theorem printRat_exampleMagnitude :
    printRat exampleMagnitude = ['2', '1', '8', '6', '.', '5', '4'] := by
  unfold printRat
  rw [if_neg (by decide)]
  unfold printNonnegRat
  rw [show decExp exampleMagnitude.den = some 2 from by decide]
  show printWithExp exampleMagnitude 2 = _
  unfold printWithExp
  rw [if_neg (by norm_num)]
  rw [show exampleMagnitude.num.toNat * (10 ^ 2 / exampleMagnitude.den)
      = 218654 from rfl]
  rw [show (218654 : ℕ) / 10 ^ 2 = 2186 from rfl,
    show (218654 : ℕ) % 10 ^ 2 = 54 from rfl, natToChars_2186, natToChars_54]
  rfl

/-! ## Claim theorems -/

theorem nonOkThrown_eq_spec (status : Nat) (body : Option JsValue) :
    nonOkThrown status body = amendedThrownSpec status body := by
  cases body with
  | none => rfl
  | some v => cases v <;> rfl

set_option maxRecDepth 8000 in
/-- C1: for every group of normalized deals the pipeline-summary win
rate is won / (won + dead), reported as insufficient data exactly when
won + dead = 0 (never NaN, never a division failure); the sector
win-rate pivot over the example board ranks Energy (3 won, 1 dead,
rate 3/4 = 0.75) first and reports Telecom (0 won, 0 dead) as
insufficient data. -/
theorem claim_C1 (ds : List NormalizedDeal) :
    (∀ grp : List NormalizedDeal,
      winRate grp = (if wonCount grp + deadCount grp = 0 then
        PivotCell.insufficientData
      else PivotCell.num ((wonCount grp : ℚ) /
        ((wonCount grp : ℚ) + (deadCount grp : ℚ))))) ∧
    (∀ s, s ∈ ds.map (fun d => d.sector) →
      (s, openCount (dealsOfSector ds s), openValueSum (dealsOfSector ds s),
        winRate (dealsOfSector ds s)) ∈ pipelineSummary ds) ∧
    runAdhoc ("sector") ("win_rate") exampleBoard []
      = Except.ok (mkPivotResult
          [(("Energy"), PivotCell.num (3 / 4)),
           (("Telecom"), PivotCell.insufficientData)] 6) ∧
    (3 : ℚ) / 4 = 0.75 := by
  refine ⟨fun grp => rfl, fun s hs => ?_, by with_unfolding_all decide,
    by norm_num⟩
  unfold pipelineSummary
  exact List.mem_map.mpr ⟨s, mem_dedupKeepFirst.mpr hs, rfl⟩

/-- Witness for C1 at the example board's Energy sector. -/
theorem claim_C1_witness :
    (("Energy"), openCount (dealsOfSector exampleBoard ("Energy")),
      openValueSum (dealsOfSector exampleBoard ("Energy")),
      winRate (dealsOfSector exampleBoard ("Energy")))
      ∈ pipelineSummary exampleBoard :=
  (claim_C1 exampleBoard).2.1 ("Energy") (by decide)

set_option maxRecDepth 8000 in
/-- C2: a currency cell equal to the error sentinel normalizes to 0.0
with an ERROR_SENTINEL flag, a null or blank cell to 0.0 with a MISSING
flag, and the example raw deal normalizes (without aborting) to an Open
deal of value 0 in sector Energy that the pipeline summary counts while
contributing 0 to the value sum. -/
theorem claim_C2 :
    parseCurrency (some errorSentinel) = (0, [FlagReason.ERROR_SENTINEL]) ∧
    parseCurrency none = (0, [FlagReason.MISSING]) ∧
    (∀ s : String, trimChars s.data = [] →
      parseCurrency (some s) = (0, [FlagReason.MISSING])) ∧
    normalizeDeal exampleRawDeal
      = some (mkDeal DealStatus.Open ("Energy"),
          [⟨maskedValueTitle, some errorSentinel, FlagReason.ERROR_SENTINEL⟩]) ∧
    pipelineSummary [mkDeal DealStatus.Open ("Energy")]
      = [(("Energy"), 1, 0, PivotCell.insufficientData)] := by
  refine ⟨parseCurrency_sentinel, parseCurrency_none,
    fun s h => parseCurrency_empty h, by decide, by with_unfolding_all decide⟩

/-- Witness for C2 at a blank currency cell. -/
theorem claim_C2_witness :
    parseCurrency (some ("   ")) = (0, [FlagReason.MISSING]) :=
  claim_C2.2.2.1 ("   ") (by decide)

/-- C3: every monetary field of every normalized record is nonnegative;
negative parsed values are clamped to 0 and flagged. -/
theorem claim_C3 :
    (∀ raw, 0 ≤ (parseCurrency raw).1) ∧
    (∀ item d fl, normalizeDeal item = some (d, fl) → 0 ≤ d.value) ∧
    (∀ item w fl, normalizeWorkOrder item = some (w, fl) →
      0 ≤ w.amountExclGst ∧ 0 ≤ w.amountInclGst ∧ 0 ≤ w.billedExclGst ∧
      0 ≤ w.billedInclGst ∧ 0 ≤ w.collected ∧ 0 ≤ w.receivable) ∧
    (∀ (s : String) (q : ℚ), trimChars s.data ≠ [] → s ≠ errorSentinel →
      parseDecS s = some q → q < 0 →
      parseCurrency (some s) = (0, [FlagReason.NEGATIVE_VALUE])) := by
  refine ⟨parseCurrency_nonneg, ?_, ?_,
    fun s q h1 h2 h3 h4 => parseCurrency_negative h1 h2 h3 h4⟩
  · intro item d fl h
    unfold normalizeDeal at h
    split at h
    · exact absurd h (by simp)
    · simp only [Option.some_inj, Prod.mk.injEq] at h
      obtain ⟨hrec, -⟩ := h
      rw [← hrec]
      exact parseCurrency_nonneg _
  · intro item w fl h
    unfold normalizeWorkOrder at h
    split at h
    · exact absurd h (by simp)
    · simp only [Option.some_inj, Prod.mk.injEq] at h
      obtain ⟨hrec, -⟩ := h
      rw [← hrec]
      exact ⟨parseCurrency_nonneg _, parseCurrency_nonneg _,
        parseCurrency_nonneg _, parseCurrency_nonneg _,
        parseCurrency_nonneg _, parseCurrency_nonneg _⟩

/-- Witness for C3 at the example deal and a negative currency cell. -/
theorem claim_C3_witness :
    0 ≤ (mkDeal DealStatus.Open ("Energy")).value ∧
    parseCurrency (some ("-3")) = (0, [FlagReason.NEGATIVE_VALUE]) :=
  ⟨claim_C3.2.1 exampleRawDeal (mkDeal DealStatus.Open ("Energy"))
      [⟨maskedValueTitle, some errorSentinel, FlagReason.ERROR_SENTINEL⟩]
      (by decide),
   claim_C3.2.2.2 ("-3") (-3) (by decide) (by decide)
      (by with_unfolding_all decide) (by norm_num)⟩

/-- C4: a duplicated header row (status cell textually equal to its own
column title) is dropped by normalization, so every aggregate over N
real rows plus one duplicated header row equals the aggregate over the
N rows alone; the same drop rule applies to the Work Orders board. -/
theorem claim_C4 (rows : List RawItem) (hdr : RawItem)
    (h : lookupRaw hdr dealStatusTitle = some dealStatusTitle) :
    normalizeDeals (rows ++ [hdr]) = normalizeDeals rows ∧
    (∀ {α : Type} (agg : List (NormalizedDeal × List DataQualityFlag) → α),
      agg (normalizeDeals (rows ++ [hdr])) = agg (normalizeDeals rows)) ∧
    pipelineSummary ((normalizeDeals (rows ++ [hdr])).map Prod.fst)
      = pipelineSummary ((normalizeDeals rows).map Prod.fst) ∧
    (∀ (wrows : List RawItem) (whdr : RawItem),
      lookupRaw whdr execStatusTitle = some execStatusTitle →
      normalizeWorkOrders (wrows ++ [whdr]) = normalizeWorkOrders wrows) := by
  have h1 := normalizeDeals_append_header rows h
  exact ⟨h1, fun agg => congrArg agg h1, by rw [h1],
    fun wrows whdr hw => normalizeWorkOrders_append_header wrows hw⟩

/-- Witness for C4 at a one-row board plus a duplicated header row. -/
theorem claim_C4_witness :
    normalizeDeals ([exampleRawDeal] ++ [headerDupRow])
      = normalizeDeals [exampleRawDeal] :=
  (claim_C4 [exampleRawDeal] headerDupRow (by decide)).1

set_option maxRecDepth 8000 in
set_option maxHeartbeats 2000000 in
/-- C5: a composite quantity string float-whitespace-token parses to
that magnitude and trimmed unit; formatting a successfully parsed
quantity reparses to the same value (round trip within formatting
tolerance); any other shape yields magnitude 0, unit Unknown and an
UNPARSEABLE_NUMBER flag; and the documented example behaves exactly. -/
theorem claim_C5 :
    (∀ (num u : List Char) (m : ℚ) (ws : Char),
      parseDec num = some m → isWs ws = true → u ≠ [] →
      (∀ c ∈ u, isWs c = false) →
      parseQuantity (String.mk (num ++ ws :: u)) = (⟨m, String.mk u⟩, [])) ∧
    (∀ (s : String) (qv : QuantityValue), parseQuantity s = (qv, []) →
      parseQuantity (formatQuantity qv) = (qv, [])) ∧
    (∀ s : String,
      (parseDec (s.data.takeWhile (fun c => !isWs c)) = none ∨
        trimChars (s.data.dropWhile (fun c => !isWs c)) = []) →
      parseQuantity s = (⟨0, "Unknown"⟩, [FlagReason.UNPARSEABLE_NUMBER])) ∧
    parseQuantity ("2186.54 HA") = (⟨2186.54, "HA"⟩, []) ∧
    formatQuantity ⟨2186.54, "HA"⟩ = "2186.54 HA" := by
  have hlit : (2186.54 : ℚ) = 218654 / 100 := by norm_num
  have hnum : parseDec (['2', '1', '8', '6'] ++ '.' :: ['5', '4'])
      = some ((2186 : ℚ) + 54 / 10 ^ 2) := by
    have hpoint := parseUnsignedDec_point (A := ['2', '1', '8', '6'])
      (B := ['5', '4']) (by decide) (by decide) (by decide) (by decide)
    unfold parseDec
    rw [if_neg (by decide), hpoint,
      show digitsVal ['2', '1', '8', '6'] = 2186 from by decide,
      show digitsVal ['5', '4'] = 54 from by decide]
    norm_num
  have hstr : ("2186.54 HA" : String)
      = String.mk ((['2', '1', '8', '6'] ++ '.' :: ['5', '4']) ++
          ' ' :: ['H', 'A']) := rfl
  refine ⟨?_, fun s qv h => parseQuantity_roundtrip h,
    fun s h => parseQuantity_fail h, ?_, ?_⟩
  · intro num u m ws hnum hws hu huws
    exact parseQuantity_shape hnum hws hu (trimChars_eq_self huws)
  · rw [hstr,
      parseQuantity_shape hnum (by decide) (by decide)
        (trimChars_eq_self (by decide)),
      show (2186 : ℚ) + 54 / 10 ^ 2 = 2186.54 from by norm_num]
  · show printRatS (2186.54 : ℚ) ++ " " ++ "HA" = "2186.54 HA"
    unfold printRatS
    rw [exampleMagnitude_eq, printRat_exampleMagnitude]
    rfl

set_option maxRecDepth 8000 in
/-- Witness for C5 at a concrete composite quantity. -/
theorem claim_C5_witness :
    parseQuantity (String.mk (['3', '.', '5'] ++ ' ' :: ['k', 'g']))
      = (⟨7 / 2, String.mk ['k', 'g']⟩, []) :=
  claim_C5.1 ['3', '.', '5'] ['k', 'g'] (7 / 2) ' '
    (by with_unfolding_all decide) (by decide) (by decide) (by decide)

/-- C6: the ad-hoc pivot succeeds exactly for the enumerated dimension
and metric sets and fails immediately with UnsupportedPivot on any
other combination, never returning an empty or guessed result. -/
theorem claim_C6 (dimension metric : String) (deals : List NormalizedDeal)
    (wos : List NormalizedWorkOrder) :
    (dimension ∈ validDimensions ∧ metric ∈ validMetrics →
      runAdhoc dimension metric deals wos
        = Except.ok (computePivot dimension metric deals wos)) ∧
    (¬(dimension ∈ validDimensions ∧ metric ∈ validMetrics) →
      runAdhoc dimension metric deals wos
        = Except.error PivotError.UnsupportedPivot) ∧
    (∀ r, runAdhoc dimension metric deals wos = Except.ok r →
      dimension ∈ validDimensions ∧ metric ∈ validMetrics) := by
  refine ⟨fun h => ?_, fun h => ?_, fun r hr => ?_⟩
  · unfold runAdhoc
    rw [if_pos h]
  · unfold runAdhoc
    rw [if_neg h]
  · by_cases h : dimension ∈ validDimensions ∧ metric ∈ validMetrics
    · exact h
    · unfold runAdhoc at hr
      rw [if_neg h] at hr
      exact absurd hr (by simp)

/-- Witness for C6 at a valid and an invalid combination. -/
theorem claim_C6_witness :
    runAdhoc ("sector") ("deal_count") [] []
      = Except.ok (computePivot ("sector") ("deal_count") [] []) ∧
    runAdhoc ("foo") ("deal_count") [] []
      = Except.error PivotError.UnsupportedPivot :=
  ⟨(claim_C6 ("sector") ("deal_count") [] []).1 (by decide),
   (claim_C6 ("foo") ("deal_count") [] []).2.1 (by decide)⟩

/-- C7: in every interleaving of two getOrRefresh callers for the same
board against an empty cache in which both callers complete, exactly
one Board Client fetch is issued: the late caller awaits the in-flight
refresh instead of fetching again. -/
theorem claim_C7 (sched : List Bool)
    (hA : (execSched initSt sched).pcA = CallerPC.done)
    (_hB : (execSched initSt sched).pcB = CallerPC.done) :
    (execSched initSt sched).fetches = 1 := by
  have hinv := cacheInv_exec sched initSt cacheInv_init
  obtain ⟨h1, h2, h3, h4, h5, h6, h7, h8⟩ := hinv
  have hc := h7 hA
  rw [h1, hc]
  simp

/-- Witness for C7 at a concrete interleaving. -/
theorem claim_C7_witness :
    (execSched initSt [true, false, true, false]).fetches = 1 :=
  claim_C7 [true, false, true, false] (by decide) (by decide)

/-- C8: formatINR renders values at or above 1e7 as crores to one
decimal, values in [1e5, 1e7) as lakhs to one decimal, values in
[1e3, 1e5) as thousands to zero decimals, and everything else,
including every negative value, unabbreviated. -/
theorem claim_C8 (v : ℚ) :
    (10 ^ 7 ≤ v → formatINR v = "₹" ++ toFixedQ (v / 10 ^ 7) 1 ++ "Cr") ∧
    (10 ^ 5 ≤ v → v < 10 ^ 7 →
      formatINR v = "₹" ++ toFixedQ (v / 10 ^ 5) 1 ++ "L") ∧
    (10 ^ 3 ≤ v → v < 10 ^ 5 →
      formatINR v = "₹" ++ toFixedQ (v / 10 ^ 3) 0 ++ "K") ∧
    (v < 10 ^ 3 → formatINR v = "₹" ++ printRatS v) ∧
    (v < 0 → formatINR v = "₹" ++ printRatS v) := by
  refine ⟨fun h1 => ?_, fun h1 h2 => ?_, fun h1 h2 => ?_, fun h1 => ?_,
    fun h1 => ?_⟩ <;> unfold formatINR
  · rw [if_pos h1]
  · rw [if_neg (by exact not_le.mpr h2), if_pos h1]
  · rw [if_neg (by exact not_le.mpr (by linarith)), if_neg (by exact not_le.mpr h2),
      if_pos h1]
  · rw [if_neg (by exact not_le.mpr (by linarith)),
      if_neg (by exact not_le.mpr (by linarith)), if_neg (by exact not_le.mpr h1)]
  · rw [if_neg (by exact not_le.mpr (by linarith)),
      if_neg (by exact not_le.mpr (by linarith)),
      if_neg (by exact not_le.mpr (by linarith))]

/-- Witness for C8 at a negative value and a crore-scale value. -/
theorem claim_C8_witness :
    formatINR (-5) = "₹" ++ printRatS (-5) ∧
    formatINR 25000000 = "₹" ++ toFixedQ (25000000 / 10 ^ 7) 1 ++ "Cr" :=
  ⟨(claim_C8 (-5)).2.2.2.2 (by norm_num), (claim_C8 25000000).1 (by norm_num)⟩

/-- C9 counterexample: a non-ok response whose body is the valid JSON
object with an empty-string detail field throws "Server error 500"
rather than the detail field's value, although the body parses as
JSON — so the claim's message rule, as stated, fails. -/
theorem claim_C9_counterexample :
    respEmptyDetail.ok = false ∧
    respEmptyDetail.body = some (JsValue.jobj [(detailKey, JsValue.jstr (""))]) ∧
    lookupField [(detailKey, JsValue.jstr (""))] detailKey
      = some (JsValue.jstr ("")) ∧
    sendMessageResult respEmptyDetail
      = ApiOutcome.thrown (JsThrown.errorMsg (serverErrorMsg 500)) ∧
    serverErrorMsg 500 ≠ ("") :=
  ⟨rfl, rfl, rfl, rfl, by decide⟩

/-- C9 (amended): every non-ok response makes each helper throw (never
return); the message is the detail value when the body parses to a
non-null JSON object with a truthy detail property, the Server error
fallback when parsing fails or the detail is absent or falsy, a
TypeError when the body parses to JSON null; refreshCache always throws
"Cache refresh failed". -/
theorem claim_C9 (resp : JsResponse) (h : resp.ok = false) :
    sendMessageResult resp
      = ApiOutcome.thrown (amendedThrownSpec resp.status resp.body) ∧
    getLeadershipUpdateResult resp
      = ApiOutcome.thrown (amendedThrownSpec resp.status resp.body) ∧
    runAdhocAnalysisResult resp
      = ApiOutcome.thrown (amendedThrownSpec resp.status resp.body) ∧
    fetchDashboardDataResult resp
      = ApiOutcome.thrown (amendedThrownSpec resp.status resp.body) ∧
    refreshCacheResult resp
      = ApiOutcome.thrown (JsThrown.errorMsg ("Cache refresh failed")) ∧
    (∀ v, sendMessageResult resp ≠ ApiOutcome.success v) := by
  have hstd : stdFetchResult resp
      = ApiOutcome.thrown (amendedThrownSpec resp.status resp.body) := by
    unfold stdFetchResult
    rw [h]
    simp [nonOkThrown_eq_spec]
  have hrc : refreshCacheResult resp
      = ApiOutcome.thrown (JsThrown.errorMsg ("Cache refresh failed")) := by
    unfold refreshCacheResult
    rw [h]
    simp
  refine ⟨hstd, hstd, hstd, hstd, hrc, fun v hv => ?_⟩
  rw [show sendMessageResult resp = stdFetchResult resp from rfl, hstd] at hv
  exact absurd hv (by simp)

/-- Witness for C9 at a non-ok response with an unparseable body. -/
theorem claim_C9_witness :
    sendMessageResult ⟨false, 404, none⟩
      = ApiOutcome.thrown (JsThrown.errorMsg (serverErrorMsg 404)) :=
  (claim_C9 ⟨false, 404, none⟩ rfl).1

/-- C10: submitMessage returns immediately, leaving the message list
unchanged and issuing no network request, whenever no text argument is
supplied and the trimmed input is empty, or a request is already in
flight. -/
theorem claim_C10 (text : Option String) (st : ChatState)
    (h : (text = none ∧ trimS st.input = ("")) ∨ st.isLoading = true) :
    submitMessage text st = (st, false) ∧
    (submitMessage text st).1.messages = st.messages ∧
    (submitMessage text st).2 = false := by
  have hmain : submitMessage text st = (st, false) := by
    unfold submitMessage
    rcases h with ⟨ht, hi⟩ | hl
    · subst ht
      rw [if_pos (Or.inl (show submitUserMsg none st = "" from hi))]
    · rw [if_pos (Or.inr hl)]
  exact ⟨hmain, by rw [hmain], by rw [hmain]⟩

/-- Witness for C10 at a whitespace-only input. -/
theorem claim_C10_witness :
    submitMessage none ⟨[⟨"assistant", "hi"⟩], "   ", false⟩
      = (⟨[⟨"assistant", "hi"⟩], "   ", false⟩, false) :=
  (claim_C10 none ⟨[⟨"assistant", "hi"⟩], "   ", false⟩
    (Or.inl ⟨rfl, by decide⟩)).1

end Skylark
